import Mathlib

/-!
Verification of the label-verification engine of the TTB repository.

The TypeScript sources are shallowly embedded as follows:
* JS strings are `List Char` (`Str`); JS string methods (`toLowerCase`,
  `trim`, `replace`, `includes`, `split`) are modelled character by
  character with JS semantics.
* The regular-expression patterns in the sources are simple enough
  (literal chunks, `\d+(?:\.\d+)?` number tokens, `\s*` gaps, `.*` gaps,
  alternations tried left to right) that leftmost-match scanning with
  maximal munch is exact; each pattern is embedded as a deterministic
  scanner over `List Char`.
* JS numbers are modelled as `ℚ`; `parseFloat` of a captured decimal
  token is exact decimal parsing.  The source compares IEEE doubles;
  decimal arithmetic here is exact rational arithmetic.
* Case folding is modelled for ASCII plus the accented uppercase letters
  occurring in the warning patterns; the specification itself documents
  the folding as ASCII-biased.
-/

namespace TTB

abbrev Str := List Char

/-- JS regex `\w`: `[A-Za-z0-9_]`. -/
def isWordChar (c : Char) : Bool :=
  ('a' ≤ c && c ≤ 'z') || ('A' ≤ c && c ≤ 'Z') || ('0' ≤ c && c ≤ '9') || c = '_'

/-- JS regex `\s` / `String.trim` whitespace (common members; exotic
Unicode space characters are omitted, none occurs in the claims). -/
def isJsSpace (c : Char) : Bool :=
  c = ' ' || c = '\t' || c = '\n' || c = '\r' || c = '\x0b' || c = '\x0c' || c = Char.ofNat 160

/-- Lowercase table: ASCII letters plus the accented uppercase letters
appearing in the warning patterns. -/
def lowerPairs : List (Char × Char) :=
  [('A', 'a'), ('B', 'b'), ('C', 'c'), ('D', 'd'), ('E', 'e'), ('F', 'f'),
   ('G', 'g'), ('H', 'h'), ('I', 'i'), ('J', 'j'), ('K', 'k'), ('L', 'l'),
   ('M', 'm'), ('N', 'n'), ('O', 'o'), ('P', 'p'), ('Q', 'q'), ('R', 'r'),
   ('S', 's'), ('T', 't'), ('U', 'u'), ('V', 'v'), ('W', 'w'), ('X', 'x'),
   ('Y', 'y'), ('Z', 'z'), ('É', 'é'), ('À', 'à')]

/-- JS `toLowerCase` on one character. -/
def jsLower (c : Char) : Char :=
  match lowerPairs.find? (fun q => q.1 = c) with
  | some q => q.2
  | none => c

def lowerStr (s : Str) : Str := s.map jsLower

/-- JS `String.trim`: strip whitespace from both ends. -/
def trimStr (s : Str) : Str :=
  ((s.dropWhile isJsSpace).reverse.dropWhile isJsSpace).reverse

/-- `normalizeText` (src/src/utils/textProcessing.ts):
`text.toLowerCase().trim().replace(/[^\w\s]/g, '')`. -/
def normalizeText (s : Str) : Str :=
  (trimStr (lowerStr s)).filter (fun c => isWordChar c || isJsSpace c)

/-- `normalizeTextForWords` (same body as `normalizeText` in the source). -/
def normalizeTextForWords (s : Str) : Str :=
  (trimStr (lowerStr s)).filter (fun c => isWordChar c || isJsSpace c)

/-- Exact prefix test: `prefixEq needle hay` holds when `needle` is a
prefix of `hay` (character equality, as JS `includes` uses). -/
def prefixEq : Str → Str → Bool
  | [], _ => true
  | _ :: _, [] => false
  | c :: cs, d :: ds => c == d && prefixEq cs ds

/-- JS `hay.includes(needle)`. -/
def jsIncludes : Str → Str → Bool
  | [], needle => prefixEq needle []
  | c :: t, needle => prefixEq needle (c :: t) || jsIncludes t needle

/-- Consume a literal pattern chunk case-insensitively; returns the rest
of the input on success (regex `/chunk/i` at the current position). -/
def eatCI : Str → Str → Option Str
  | [], l => some l
  | _ :: _, [] => none
  | c :: cs, d :: ds => if jsLower d = jsLower c then eatCI cs ds else none

/-- Length of the leading run of `\s` characters (greedy `\s*`). -/
def wsCount (l : Str) : Nat := (l.takeWhile isJsSpace).length

/-- Regex `\d+(?:\.\d+)?` at the current position: the captured token and
the rest.  The fractional group is taken only when a digit follows the
dot, as the regex requires. -/
def numTokenAt (l : Str) : Option (Str × Str) :=
  let ds := l.takeWhile Char.isDigit
  if ds.isEmpty then none
  else
    let r := l.drop ds.length
    match r with
    | '.' :: r2 =>
      let fs := r2.takeWhile Char.isDigit
      if fs.isEmpty then some (ds, r)
      else some (ds ++ '.' :: fs, r2.drop fs.length)
    | _ => some (ds, r)

def digitsToNat (s : Str) : Nat :=
  s.foldl (fun n c => 10 * n + (c.toNat - 48)) 0

/-- `parseFloat` on a token of shape `\d+(\.\d+)?`, as an exact rational
(built with `mkRat` so that the kernel can evaluate it). -/
def parseDec (s : Str) : ℚ :=
  let ip := s.takeWhile Char.isDigit
  let r := s.drop ip.length
  match r with
  | '.' :: fs => mkRat (digitsToNat ip * 10 ^ fs.length + digitsToNat fs) (10 ^ fs.length)
  | _ => mkRat (digitsToNat ip) 1

/-- The float comparison `percentage >= 0` rendered exactly on `ℚ`
(numerator sign; equivalent to `0 ≤ q`, see `qNonneg_iff`). -/
def qNonneg (q : ℚ) : Prop := 0 ≤ q.num

/-- The float comparison `percentage <= 100` rendered exactly on `ℚ`
(cross-multiplied; equivalent to `q ≤ 100`, see `qLe100_iff`). -/
def qLe100 (q : ℚ) : Prop := q.num ≤ 100 * (q.den : ℤ)

/-- The float comparison `Math.abs(percentage - expected) <= 0.1`
rendered exactly on `ℚ` (cross-multiplied; equivalent to
`|q - e| ≤ 1 / 10`, see `qTol_iff`). -/
def qTol (q e : ℚ) : Prop :=
  10 * (q.num * (e.den : ℤ) - e.num * (q.den : ℤ)).natAbs ≤ q.den * e.den

instance (q : ℚ) : Decidable (qNonneg q) := by unfold qNonneg; infer_instance

instance (q : ℚ) : Decidable (qLe100 q) := by unfold qLe100; infer_instance

instance (q e : ℚ) : Decidable (qTol q e) := by unfold qTol; infer_instance

/-- Leftmost-match scanning: try the position matcher `f` at every
suffix, left to right, and return its first success. -/
def scanFirst {β : Type} (f : Str → Option β) : Str → Option β
  | [] => f []
  | c :: t =>
    match f (c :: t) with
    | some r => some r
    | none => scanFirst f t

/-- Leftmost-match scanning returning the matched span (`match[0]`):
`f` reports the number of characters consumed at the current position. -/
def scanSpan (f : Str → Option Nat) : Str → Option Str
  | [] => (f []).map (fun _ => [])
  | c :: t =>
    match f (c :: t) with
    | some n => some ((c :: t).take n)
    | none => scanSpan f t

/-- JS `text.split('\n')` (keeps empty segments). -/
def splitNl : Str → List Str
  | [] => [[]]
  | c :: t =>
    if c = '\n' then [] :: splitNl t
    else
      match splitNl t with
      | [] => [[c]]
      | h :: r => (c :: h) :: r

/-- Helper of `splitWsTokens`: accumulates the current token reversed. -/
def splitWsTokensAux : Str → Str → List Str
  | acc, [] => if acc.isEmpty then [] else [acc.reverse]
  | acc, c :: t =>
    if isJsSpace c then
      if acc.isEmpty then splitWsTokensAux [] t
      else acc.reverse :: splitWsTokensAux [] t
    else splitWsTokensAux (c :: acc) t

/-- Tokens of `split(/\s+/)` that are nonempty (the possible leading
empty token of the JS split is removed by the length filter at every
use site). -/
def splitWsTokens (s : Str) : List Str := splitWsTokensAux [] s

/-- JS truthiness of an optional string (`undefined` and `""` are falsy). -/
def jsTruthyStr : Option Str → Bool
  | none => false
  | some s => !s.isEmpty

/-! ### Alcohol percentage extraction (src/unnamed/part_004, both variants) -/

/-- `/(\d+(?:\.\d+)?)\s*%/i` at a position: the captured number token. -/
def alcP1At (l : Str) : Option Str := do
  let (tok, r) ← numTokenAt l
  match r.drop (wsCount r) with
  | '%' :: _ => some tok
  | _ => none

/-- `/(\d+(?:\.\d+)?)\s*abv/i` at a position. -/
def alcP2At (l : Str) : Option Str := do
  let (tok, r) ← numTokenAt l
  let _ ← eatCI "abv".data (r.drop (wsCount r))
  some tok

/-- `/(\d+(?:\.\d+)?)\s*alc\/vol/i` at a position. -/
def alcP3At (l : Str) : Option Str := do
  let (tok, r) ← numTokenAt l
  let _ ← eatCI "alc/vol".data (r.drop (wsCount r))
  some tok

/-- `/alcohol\s*by\s*volume[:\s]*(\d+(?:\.\d+)?)/i` at a position. -/
def alcP4At (l : Str) : Option Str := do
  let r1 ← eatCI "alcohol".data l
  let r2 ← eatCI "by".data (r1.drop (wsCount r1))
  let r3 ← eatCI "volume".data (r2.drop (wsCount r2))
  let r4 := r3.dropWhile (fun c => c = ':' || isJsSpace c)
  let (tok, _) ← numTokenAt r4
  some tok

/-- `/alc\.?\s*(\d+(?:\.\d+)?)\s*%/i` at a position. -/
def alcP5At (l : Str) : Option Str := do
  let r1 ← eatCI "alc".data l
  let r2 := match r1 with
    | '.' :: rest => rest
    | _ => r1
  let (tok, r3) ← numTokenAt (r2.drop (wsCount r2))
  match r3.drop (wsCount r3) with
  | '%' :: _ => some tok
  | _ => none

/-- Ordered pattern list of the hint-driven `extractAlcoholPercentage`. -/
def alcPatterns : List (Str → Option Str) :=
  [alcP1At, alcP2At, alcP3At, alcP4At, alcP5At]

/-- Ordered pattern list of the legacy one-argument variant. -/
def alcPatternsLegacy : List (Str → Option Str) :=
  [alcP1At, alcP2At, alcP3At, alcP4At]

/-- Pattern loop of the hint-driven variant: each pattern contributes its
first match; a candidate is returned when it is in range and within the
±0.1 tolerance of the expected value, otherwise the next pattern is tried. -/
def alcLoop (e : ℚ) (t : Str) : List (Str → Option Str) → Option ℚ
  | [] => none
  | p :: ps =>
    match scanFirst p t with
    | some tok =>
      let q := parseDec tok
      if qNonneg q ∧ qLe100 q ∧ qTol q e then some q else alcLoop e t ps
    | none => alcLoop e t ps

/-- `extractAlcoholPercentage(text, expectedAlcohol?)`
(src/unnamed/part_004, hint-driven variant). -/
def extractAlcoholPercentage (text : Str) (expectedAlcohol : Option ℚ) : Option ℚ :=
  match expectedAlcohol with
  | some e => alcLoop e text alcPatterns
  | none => none

/-- Pattern loop of the legacy variant: first candidate in `[0, 100]`. -/
def alcLoopLegacy (t : Str) : List (Str → Option Str) → Option ℚ
  | [] => none
  | p :: ps =>
    match scanFirst p t with
    | some tok =>
      let q := parseDec tok
      if qNonneg q ∧ qLe100 q then some q else alcLoopLegacy t ps
    | none => alcLoopLegacy t ps

/-- `extractAlcoholPercentage(text)` (src/src/utils/textProcessing.ts,
legacy one-argument variant). -/
def extractAlcoholPercentageLegacy (text : Str) : Option ℚ :=
  alcLoopLegacy text alcPatternsLegacy

/-! ### Volume extraction -/

/-- Number token, `\s*`, then a unit matcher reporting consumed length. -/
def numThen (unit : Str → Option Nat) (l : Str) : Option Nat := do
  let (tok, r) ← numTokenAt l
  let sp := wsCount r
  let n ← unit (r.drop sp)
  some (tok.length + sp + n)

/-- Number token, `\s*\n\s*`, then a unit.  The whitespace gap must
contain a newline; every unit begins with a letter, so the gap consumed
by the backtracking `\s*\n\s*` always ends at the first non-space
character and the matched span does not depend on the split chosen. -/
def numThenNl (unit : Str → Option Nat) (l : Str) : Option Nat := do
  let (tok, r) ← numTokenAt l
  let run := r.takeWhile isJsSpace
  if run.contains '\n' then do
    let n ← unit (r.drop run.length)
    some (tok.length + run.length + n)
  else none

/-- A literal unit (case-insensitive). -/
def litLen (w : Str) (l : Str) : Option Nat := (eatCI w l).map (fun _ => w.length)

/-- Unit `fl\s*oz`. -/
def flWsOzLen (l : Str) : Option Nat := do
  let r ← eatCI "fl".data l
  let sp := wsCount r
  let _ ← eatCI "oz".data (r.drop sp)
  some (2 + sp + 2)

/-- Unit `fl\.?\s*oz`. -/
def flDotOptWsOzLen (l : Str) : Option Nat := do
  let r ← eatCI "fl".data l
  let (d, r2) := match r with
    | '.' :: rest => (1, rest)
    | _ => (0, r)
  let sp := wsCount r2
  let _ ← eatCI "oz".data (r2.drop sp)
  some (2 + d + sp + 2)

/-- Unit `fl\.oz`. -/
def flDotOzLen (l : Str) : Option Nat := do
  let r ← eatCI "fl".data l
  match r with
  | '.' :: rest => do
    let _ ← eatCI "oz".data rest
    some 5
  | _ => none

/-- Unit `l\b`: the letter l followed by a non-word character or the end. -/
def lWordBLen : Str → Option Nat
  | [] => none
  | c :: rest =>
    if jsLower c = 'l' then
      match rest with
      | [] => some 1
      | d :: _ => if isWordChar d then none else some 1
    else none

/-- The 13 volume patterns of the hint-driven `extractVolume`, in source
order. -/
def volPatterns : List (Str → Option Nat) :=
  [numThen (litLen "cl".data), numThen (litLen "ml".data),
   numThen (litLen "liter".data), numThen (litLen "l".data),
   numThen (litLen "ounce".data), numThen (litLen "oz".data),
   numThen flWsOzLen, numThen flDotOptWsOzLen, numThen flDotOzLen,
   numThenNl flDotOptWsOzLen, numThenNl (litLen "oz".data),
   numThenNl (litLen "ml".data), numThenNl (litLen "cl".data)]

/-- `s.match(/(\d+(?:\.\d+)?)/)`: the first number token in a string. -/
def firstNumTok (s : Str) : Option Str :=
  scanFirst (fun l => (numTokenAt l).map (fun p => p.1)) s

/-- Volume pattern loop: for each pattern's first match, accept it when
its normalization and the expected value's normalization contain one
another, or when the leading number tokens agree; otherwise try the next
pattern. -/
def volPatLoop (expectedV t : Str) : List (Str → Option Nat) → Option Str
  | [] => none
  | p :: ps =>
    match scanSpan p t with
    | some span =>
      let foundVolume := trimStr (span.map (fun c => if c = '\n' then ' ' else c))
      let nf := normalizeText foundVolume
      let ne := normalizeText expectedV
      if jsIncludes nf ne || jsIncludes ne nf then some foundVolume
      else
        match firstNumTok foundVolume, firstNumTok expectedV with
        | some a, some b =>
          if a = b then some foundVolume else volPatLoop expectedV t ps
        | _, _ => volPatLoop expectedV t ps
    | none => volPatLoop expectedV t ps

/-- Unit patterns of the line-based fallback, in source order. -/
def fallbackUnitPatterns : List (Str → Option Nat) :=
  [flDotOptWsOzLen, litLen "oz".data, litLen "ml".data, litLen "cl".data,
   litLen "liter".data, lWordBLen]

/-- Fallback unit loop: synthesize `"<number> <unit>"` from the first
match of each unit pattern and accept on mutual-containment of
normalizations. -/
def unitLoop (number expectedV searchText : Str) : List (Str → Option Nat) → Option Str
  | [] => none
  | u :: us =>
    match scanSpan u searchText with
    | some um =>
      let foundVolume := number ++ ' ' :: um
      let nf := normalizeText foundVolume
      let ne := normalizeText expectedV
      if jsIncludes nf ne || jsIncludes ne nf then some foundVolume
      else unitLoop number expectedV searchText us
    | none => unitLoop number expectedV searchText us

/-- Line-based fallback of `extractVolume`: for each line whose first
number token equals the expected value's first number token, search the
current, previous and next lines (joined by spaces, empty lines removed
by the JS `filter(Boolean)`) for a unit. -/
def fbLoop (expectedV : Str) : Option Str → List Str → Option Str
  | _, [] => none
  | prevLine, cur :: rest =>
    let step :=
      match firstNumTok (trimStr cur), firstNumTok expectedV with
      | some number, some expNumber =>
        if number = expNumber then
          let searchLines := ([some cur, prevLine, rest.head?].filterMap id).filter (fun s => !s.isEmpty)
          unitLoop number expectedV (List.intercalate [' '] searchLines) fallbackUnitPatterns
        else none
      | _, _ => none
    match step with
    | some r => some r
    | none => fbLoop expectedV (some cur) rest

/-- `extractVolume(text, expectedVolume?)` (src/unnamed/part_004,
hint-driven variant with pattern and line fallbacks). -/
def extractVolume (text : Str) (expectedVolume : Option Str) : Option Str :=
  match expectedVolume with
  | none => none
  | some v =>
    if v.isEmpty then none
    else if jsIncludes (normalizeText text) (normalizeText v) then some v
    else
      match volPatLoop v text volPatterns with
      | some r => some r
      | none => fbLoop v none (splitNl text)

/-- Alternation of literal units, tried left to right as the regex does. -/
def altLen : List Str → Str → Option Nat
  | [], _ => none
  | w :: ws, l =>
    match eatCI w l with
    | some _ => some w.length
    | none => altLen ws l

/-- Unit `fluid\s*ounce`. -/
def fluidWsOunceLen (l : Str) : Option Nat := do
  let r ← eatCI "fluid".data l
  let sp := wsCount r
  let _ ← eatCI "ounce".data (r.drop sp)
  some (5 + sp + 5)

/-- Unit `fluid\s*ounces`. -/
def fluidWsOuncesLen (l : Str) : Option Nat := do
  let r ← eatCI "fluid".data l
  let sp := wsCount r
  let _ ← eatCI "ounces".data (r.drop sp)
  some (5 + sp + 6)

/-- Ordered alternation of two unit matchers. -/
def orUnit (a b : Str → Option Nat) (l : Str) : Option Nat :=
  match a l with
  | some n => some n
  | none => b l

/-- The three volume patterns of the legacy `extractVolume`, in source
order, with their unit alternations in source order. -/
def volPatternsLegacy : List (Str → Option Nat) :=
  [numThen (altLen ["ml".data, "milliliter".data, "milliliters".data]),
   numThen (orUnit flWsOzLen (orUnit fluidWsOunceLen fluidWsOuncesLen)),
   numThen (altLen ["l".data, "liter".data, "liters".data])]

def volLegacyLoop (t : Str) : List (Str → Option Nat) → Option Str
  | [] => none
  | p :: ps =>
    match scanSpan p t with
    | some span => some (trimStr span)
    | none => volLegacyLoop t ps

/-- `extractVolume(text)` (src/src/utils/textProcessing.ts, legacy
one-argument variant returning the trimmed first matched span). -/
def extractVolumeLegacy (text : Str) : Option Str :=
  volLegacyLoop text volPatternsLegacy

/-! ### Government warning detection (src/src/utils/textProcessing.ts) -/

structure WarningOutcome where
  found : Bool
  text : Option Str
deriving DecidableEq

/-- A pattern of literal chunks separated by `\s*` gaps; returns the
consumed length.  The gaps are greedy-exact because every chunk begins
with a non-space character. -/
def phraseAt : List Str → Str → Option Nat
  | [], _ => some 0
  | [c], l => (eatCI c l).map (fun _ => c.length)
  | c :: cs, l => do
    let r ← eatCI c l
    let sp := wsCount r
    let n ← phraseAt cs (r.drop sp)
    some (c.length + sp + n)

/-- Leftmost match of a chunk phrase, returning the matched span. -/
def phrase (chunks : List Str) : Str → Option Str :=
  scanSpan (phraseAt chunks)

/-- `x.*y` at a position: `x`, then a greedy newline-free gap, then `y`
(the greedy `.*` ends the span at the last `y` before the next newline). -/
def dotStarAt (x y : Str) (l : Str) : Option Nat := do
  let r ← eatCI x l
  let region := r.takeWhile (fun c => !(c = '\n'))
  match ((List.range (region.length + 1)).filter
      (fun j => (eatCI y (r.drop j)).isSome)).getLast? with
  | some j => some (x.length + j + y.length)
  | none => none

/-- Leftmost match of `x.*y`, returning the matched span. -/
def dotStar (x y : Str) : Str → Option Str :=
  scanSpan (dotStarAt x y)

/-- The apostrophe character (in the French warning phrases). -/
def apos : Char := Char.ofNat 39

/-- The ordered warning pattern list of `checkGovernmentWarning`
(src/src/utils/textProcessing.ts, lines 52-86). -/
def gwPatterns : List (Str → Option Str) :=
  [phrase ["government".data, "warning".data],
   phrase ["pregnant".data, "women".data],
   phrase ["driving".data, "under".data, "the".data, "influence".data],
   phrase ["health".data, "risks".data],
   phrase ["may".data, "cause".data, "birth".data, "defects".data],
   phrase ["impair".data, "ability".data],
   phrase ["operate".data, "machinery".data],
   phrase ["may".data, "cause".data, "health".data, "problems".data],
   phrase ["alcohol".data, "abuse".data, "is".data, "dangerous".data],
   phrase ["drink".data, "responsibly".data],
   phrase ["not".data, "for".data, "sale".data, "to".data, "minors".data],
   phrase ["under".data, "21".data],
   phrase ["age".data, "21".data],
   dotStar "warning".data "pregnant".data,
   dotStar "warning".data "driving".data,
   dotStar "warning".data "health".data,
   phrase ["abus".data, "dangereux".data],
   phrase ["consommer".data, "avec".data, "modération".data],
   phrase ["interdit".data, "aux".data, "moins".data, "de".data, "18".data, "ans".data],
   phrase ["déconseillé".data, "aux".data, "femmes".data, "enceintes".data],
   phrase [('l' :: apos :: "abus".data), ('d' :: apos :: "alcool".data), "est".data, "dangereux".data],
   phrase ["à".data, "consommer".data, "avec".data, "modération".data],
   phrase ["interdit".data, "aux".data, "moins".data, "de".data, "dix-huit".data, "ans".data],
   phrase ["déconseillé".data, "aux".data, "femmes".data, "enceintes".data],
   phrase ["excessive".data, "consumption".data],
   phrase ["harmful".data, "to".data, "health".data],
   phrase ["drink".data, "in".data, "moderation".data],
   phrase ["not".data, "for".data, "children".data],
   phrase ["18+".data],
   phrase ["21+".data]]

/-- First success of an ordered list of matchers. -/
def firstSome {α β : Type} (fs : List (α → Option β)) (x : α) : Option β :=
  match fs with
  | [] => none
  | f :: fs2 =>
    match f x with
    | some r => some r
    | none => firstSome fs2 x

/-- `checkGovernmentWarning(text)`: the first matching pattern's matched
span, or `found = false` with no snippet. -/
def checkGovernmentWarning (t : Str) : WarningOutcome :=
  match firstSome gwPatterns t with
  | some s => ⟨true, some s⟩
  | none => ⟨false, none⟩

/-! ### Fuzzy matching (src/src/utils/textProcessing.ts) -/

/-- The fixed optical-confusion table `ocrSubstitutions` (a missing key
yields the empty list, as `table[c]?.includes(x)` is false in JS). -/
def ocrSubs (c : Char) : Str :=
  if c = 'c' then ['e', 'o', 'g']
  else if c = 'e' then ['c', 'o']
  else if c = 'o' then ['c', 'e', '0']
  else if c = 'i' then ['l', '1']
  else if c = 'l' then ['i', '1']
  else if c = 'u' then ['n', 'v']
  else if c = 'n' then ['u', 'v']
  else if c = 'v' then ['u', 'n']
  else if c = 'q' then ['g', 'o']
  else if c = 'g' then ['q', 'o']
  else if c = 't' then ['f', 'l']
  else if c = 'f' then ['t', 'l']
  else []

/-- Positions over the shared prefix where the characters are equal or
confusable. -/
def matchCount : Str → Str → Nat
  | [], _ => 0
  | _, [] => 0
  | e :: es, x :: xs =>
    (if e == x || (ocrSubs e).contains x then 1 else 0) + matchCount es xs

/-- `isBrandNameMatch`: length difference at most 2 and at least 70 % of
the positions over the shared prefix match (`0/0` is NaN in the source
and compares false). -/
def isBrandNameMatch (expected extracted : Str) : Bool :=
  if ((expected.length : Int) - (extracted.length : Int)).natAbs > 2 then false
  else
    let minLength := min expected.length extracted.length
    if minLength = 0 then false
    else 10 * matchCount expected extracted ≥ 7 * minLength

/-- Words of length > 2 of the word-normalized string. -/
def fuzzyWords (s : Str) : List Str :=
  (splitWsTokens (normalizeTextForWords s)).filter (fun word => word.length > 2)

/-- `fuzzyMatch(expected, extracted)`: the layered cascade of the source
(exact, containment both ways, optical similarity, word subset, reverse
word subset with equal counts). -/
def fuzzyMatch (expected extracted : Str) : Bool :=
  let normalizedExpected := normalizeText expected
  let normalizedExtracted := normalizeText extracted
  if normalizedExpected = normalizedExtracted then true
  else if jsIncludes normalizedExtracted normalizedExpected then true
  else if jsIncludes normalizedExpected normalizedExtracted then true
  else if isBrandNameMatch normalizedExpected normalizedExtracted then true
  else
    let expectedWords := fuzzyWords expected
    let extractedWords := fuzzyWords extracted
    if expectedWords.all (fun ew => extractedWords.any (fun xw => jsIncludes xw ew)) then true
    else if extractedWords.all (fun xw => expectedWords.any (fun ew => jsIncludes ew xw))
        && expectedWords.length == extractedWords.length then true
    else false

/-! ### Brand name and product class extraction (hint-driven variants) -/

/-- `extractBrandName(text, expectedBrandName?)` (src/unnamed/part_004):
null without an expected value; the expected value echoed verbatim when
its normalization occurs in the normalized text. -/
def extractBrandName (text : Str) (expectedBrandName : Option Str) : Option Str :=
  match expectedBrandName with
  | some v =>
    if v.isEmpty then none
    else if jsIncludes (normalizeText text) (normalizeText v) then some v
    else none
  | none => none

/-- `extractProductClass(text, expectedProductClass?)`
(src/unnamed/part_004): same contract shape as `extractBrandName`. -/
def extractProductClass (text : Str) (expectedProductClass : Option Str) : Option Str :=
  match expectedProductClass with
  | some v =>
    if v.isEmpty then none
    else if jsIncludes (normalizeText text) (normalizeText v) then some v
    else none
  | none => none

/-! ### Verification aggregation -/

structure TTBFormData where
  brandName : Str
  productClass : Str
  alcoholContent : Option ℚ
  netContents : Option Str

structure OCRResult where
  text : Str
  confidence : ℚ

/-- A per-field outcome (the source field `match` is a reserved word in
Lean and is called `matched` here). -/
structure FieldOutcome where
  matched : Bool
  extracted : Str
  expected : Str

structure NumericOutcome where
  matched : Bool
  extracted : Option ℚ
  expected : ℚ

structure VerificationResult where
  brandName : FieldOutcome
  productClass : FieldOutcome
  alcoholContent : Option NumericOutcome
  netContents : Option FieldOutcome
  governmentWarning : WarningOutcome
  overallMatch : Bool
  extractedText : Str
  ocrConfidence : ℚ

/-- `verifyLabel(formData, ocrResult)` (src/src/lib/verification.ts,
current variant with hint-driven extractors). -/
def verifyLabel (formData : TTBFormData) (ocrResult : OCRResult) : VerificationResult :=
  let extractedText := ocrResult.text
  let extractedBrandName := extractBrandName extractedText (some formData.brandName)
  let brandNameMatch := extractedBrandName.isSome
  let extractedProductClass := extractProductClass extractedText (some formData.productClass)
  let productClassMatch := extractedProductClass.isSome
  let extractedAlcohol := extractAlcoholPercentage extractedText formData.alcoholContent
  let alcoholContentMatch :=
    match formData.alcoholContent with
    | some _ => extractedAlcohol.isSome
    | none => true
  let netTruthy := jsTruthyStr formData.netContents
  let extractedNetContents :=
    if netTruthy then extractVolume extractedText formData.netContents else none
  let netContentsMatch :=
    if netTruthy then extractedNetContents.isSome else true
  let governmentWarning := checkGovernmentWarning extractedText
  let overallMatch := brandNameMatch && productClassMatch && alcoholContentMatch && netContentsMatch
  { brandName := ⟨brandNameMatch, extractedBrandName.getD [], formData.brandName⟩
    productClass := ⟨productClassMatch, extractedProductClass.getD [], formData.productClass⟩
    alcoholContent :=
      match formData.alcoholContent with
      | some e => some ⟨alcoholContentMatch, extractedAlcohol, e⟩
      | none => none
    netContents :=
      match formData.netContents with
      | some v => if v.isEmpty then none else some ⟨netContentsMatch, extractedNetContents.getD [], v⟩
      | none => none
    governmentWarning := governmentWarning
    overallMatch := overallMatch
    extractedText := extractedText
    ocrConfidence := ocrResult.confidence }

/-- Legacy form data (src/unnamed/part_007): `alcoholContent` required. -/
structure TTBFormDataLegacy where
  brandName : Str
  productClass : Str
  alcoholContent : ℚ
  netContents : Option Str

structure NumericOutcomeLegacy where
  matched : Bool
  extracted : ℚ
  expected : ℚ

structure VerificationResultLegacy where
  brandName : FieldOutcome
  productClass : FieldOutcome
  alcoholContent : NumericOutcomeLegacy
  netContents : Option FieldOutcome
  governmentWarning : WarningOutcome
  overallMatch : Bool

/-- `verifyLabel(formData, ocrResult)` (src/src/lib/verification.ts,
legacy variant that fuzzy-matches the whole recognized text and requires
the government warning for the overall verdict). -/
def verifyLabelLegacy (formData : TTBFormDataLegacy) (ocrResult : OCRResult) :
    VerificationResultLegacy :=
  let extractedText := ocrResult.text
  let brandNameMatch := fuzzyMatch formData.brandName extractedText
  let productClassMatch := fuzzyMatch formData.productClass extractedText
  let extractedAlcohol := extractAlcoholPercentageLegacy extractedText
  let alcoholContentMatch :=
    match extractedAlcohol with
    | some q => decide (|q - formData.alcoholContent| ≤ 1 / 10)
    | none => false
  let netTruthy := jsTruthyStr formData.netContents
  let extractedNetContents :=
    if netTruthy then extractVolumeLegacy extractedText else none
  let netContentsMatch :=
    if netTruthy then
      match extractedNetContents with
      | some s => fuzzyMatch (formData.netContents.getD []) s
      | none => false
    else true
  let governmentWarning := checkGovernmentWarning extractedText
  let overallMatch := brandNameMatch && productClassMatch && alcoholContentMatch
    && netContentsMatch && governmentWarning.found
  { brandName := ⟨brandNameMatch, formData.brandName, formData.brandName⟩
    productClass := ⟨productClassMatch, formData.productClass, formData.productClass⟩
    alcoholContent := ⟨alcoholContentMatch, extractedAlcohol.getD 0, formData.alcoholContent⟩
    netContents :=
      match formData.netContents with
      | some v => if v.isEmpty then none else some ⟨netContentsMatch, extractedNetContents.getD [], v⟩
      | none => none
    governmentWarning := governmentWarning
    overallMatch := overallMatch }

/-- Modelled from the spec's invariant wording (§3): every *present*
FieldOutcome has `matched = true`; absent optional fields do not count. -/
def specPresentFieldsMatched (r : VerificationResult) : Bool :=
  r.brandName.matched && r.productClass.matched
    && (match r.alcoholContent with
        | some o => o.matched
        | none => true)
    && (match r.netContents with
        | some o => o.matched
        | none => true)

/-- Modelled from the claim's wording for C6: normalization that removes
spaces, newlines and periods. -/
def specNormalizeVolume (s : Str) : Str :=
  s.filter (fun c => !(c = ' ' || c = '\n' || c = '.'))

/-- A candidate of the alcohol extractor: the parsed first match of one
of the five patterns. -/
def alcCandidate (t : Str) (v : ℚ) : Prop :=
  ∃ p ∈ alcPatterns, ∃ tok, scanFirst p t = some tok ∧ parseDec tok = v

/-! ### Helper lemmas -/

theorem lowerPairs_snd_not_key :
    ∀ p ∈ lowerPairs, lowerPairs.find? (fun q => q.1 = p.2) = none := by decide

theorem jsLower_idem (c : Char) : jsLower (jsLower c) = jsLower c := by
  cases h : lowerPairs.find? (fun q => q.1 = c) with
  | none =>
    have hc : jsLower c = c := by simp [jsLower, h]
    rw [hc, hc]
  | some p =>
    have hm : p ∈ lowerPairs := List.mem_of_find?_eq_some h
    have hc : jsLower c = p.2 := by simp [jsLower, h]
    rw [hc]
    simp [jsLower, lowerPairs_snd_not_key p hm]

theorem mem_trimStr {c : Char} {l : Str} (h : c ∈ trimStr l) : c ∈ l := by
  unfold trimStr at h
  rw [List.mem_reverse] at h
  have h2 : c ∈ (l.dropWhile isJsSpace).reverse := (List.dropWhile_sublist _).subset h
  rw [List.mem_reverse] at h2
  exact (List.dropWhile_sublist _).subset h2

theorem jsLower_fixed_of_mem_normalizeText {c : Char} {s : Str}
    (h : c ∈ normalizeText s) : jsLower c = c := by
  unfold normalizeText at h
  have h1 : c ∈ trimStr (lowerStr s) := List.mem_of_mem_filter h
  have h2 : c ∈ lowerStr s := mem_trimStr h1
  obtain ⟨d, _, rfl⟩ := List.mem_map.mp h2
  exact jsLower_idem d

theorem normalizeText_normalizeText (s : Str) :
    normalizeText (normalizeText s) = trimStr (normalizeText s) := by
  have hlower : lowerStr (normalizeText s) = normalizeText s := by
    unfold lowerStr
    conv_rhs => rw [← List.map_id (normalizeText s)]
    exact List.map_congr_left (fun a ha => jsLower_fixed_of_mem_normalizeText ha)
  have hfilter : (trimStr (normalizeText s)).filter (fun c => isWordChar c || isJsSpace c)
      = trimStr (normalizeText s) := by
    apply List.filter_eq_self.mpr
    intro a ha
    have h1 : a ∈ normalizeText s := mem_trimStr ha
    unfold normalizeText at h1
    exact (List.mem_filter.mp h1).2
  calc normalizeText (normalizeText s)
      = (trimStr (lowerStr (normalizeText s))).filter (fun c => isWordChar c || isJsSpace c) := rfl
    _ = (trimStr (normalizeText s)).filter (fun c => isWordChar c || isJsSpace c) := by rw [hlower]
    _ = trimStr (normalizeText s) := hfilter

theorem qNonneg_iff (q : ℚ) : qNonneg q ↔ 0 ≤ q := Rat.num_nonneg

theorem qLe100_iff (q : ℚ) : qLe100 q ↔ q ≤ 100 := by
  unfold qLe100
  rw [Rat.le_def]
  simp

theorem qTol_iff (q e : ℚ) : qTol q e ↔ |q - e| ≤ 1 / 10 := by
  unfold qTol
  have hq0 : ((q.den : ℚ)) ≠ 0 := by
    have := q.den_pos
    exact_mod_cast Nat.pos_iff_ne_zero.mp this
  have he0 : ((e.den : ℚ)) ≠ 0 := by
    have := e.den_pos
    exact_mod_cast Nat.pos_iff_ne_zero.mp this
  have hpos : (0 : ℚ) < ((q.den * e.den : ℕ) : ℚ) := by
    exact_mod_cast Nat.mul_pos q.den_pos e.den_pos
  have key : q - e = ((q.num * e.den - e.num * q.den : ℤ) : ℚ) / ((q.den * e.den : ℕ) : ℚ) := by
    conv_lhs => rw [← Rat.num_div_den q, ← Rat.num_div_den e]
    rw [div_sub_div _ _ hq0 he0]
    push_cast
    ring_nf
  rw [key, abs_div, abs_of_pos hpos, div_le_div_iff₀ hpos (by norm_num : (0 : ℚ) < 10)]
  rw [← Int.cast_abs, ← Int.cast_natAbs, one_mul]
  norm_cast
  constructor <;> omega

theorem prefixEq_iff {n l : Str} : prefixEq n l = true ↔ ∃ r, l = n ++ r := by
  induction n generalizing l with
  | nil =>
    simp [prefixEq]
  | cons c cs ih =>
    cases l with
    | nil =>
      simp [prefixEq]
    | cons d ds =>
      rw [prefixEq, Bool.and_eq_true, beq_iff_eq, ih]
      constructor
      · rintro ⟨rfl, r, rfl⟩
        exact ⟨r, rfl⟩
      · rintro ⟨r, hr⟩
        injection hr with h1 h2
        exact ⟨h1.symm, r, h2⟩

theorem jsIncludes_iff {l n : Str} : jsIncludes l n = true ↔ ∃ a b, l = a ++ n ++ b := by
  induction l with
  | nil =>
    rw [jsIncludes, prefixEq_iff]
    constructor
    · rintro ⟨r, hr⟩
      obtain ⟨hn, hrr⟩ := List.append_eq_nil.mp hr.symm
      exact ⟨[], [], by simp [hn]⟩
    · rintro ⟨a, b, hab⟩
      obtain ⟨hab2, hb⟩ := List.append_eq_nil.mp hab.symm
      obtain ⟨ha, hn⟩ := List.append_eq_nil.mp hab2
      exact ⟨[], by simp [hn]⟩
  | cons c t ih =>
    rw [jsIncludes, Bool.or_eq_true, prefixEq_iff, ih]
    constructor
    · rintro (⟨r, hr⟩ | ⟨a, b, hab⟩)
      · exact ⟨[], r, by simpa using hr⟩
      · exact ⟨c :: a, b, by simp [hab]⟩
    · rintro ⟨a, b, hab⟩
      cases a with
      | nil =>
        exact Or.inl ⟨b, by simpa using hab⟩
      | cons x xs =>
        injection hab with h1 h2
        subst h1
        exact Or.inr ⟨xs, b, h2⟩

theorem jsIncludes_nil_right (l : Str) : jsIncludes l [] = true := by
  cases l <;> simp [jsIncludes, prefixEq]

theorem scanSpan_isSome_append (f : Str → Option Nat) (a rest : Str) (k : Nat)
    (h : f rest = some k) : (scanSpan f (a ++ rest)).isSome := by
  induction a with
  | nil =>
    cases rest with
    | nil => simp [scanSpan, h]
    | cons c t => simp [scanSpan, h]
  | cons c a2 ih =>
    rw [List.cons_append, scanSpan]
    cases hf : f (c :: (a2 ++ rest)) with
    | some n => simp
    | none => simpa using ih

theorem firstSome_isSome_of_mem {α β : Type} {fs : List (α → Option β)} {x : α}
    {f : α → Option β} (hf : f ∈ fs) (h : (f x).isSome) : (firstSome fs x).isSome := by
  induction fs with
  | nil => cases hf
  | cons g gs ih =>
    rw [firstSome]
    cases hg : g x with
    | some r => simp
    | none =>
      rcases List.mem_cons.mp hf with rfl | hmem
      · rw [hg] at h
        simp at h
      · simpa using ih hmem

theorem firstSome_eq_some {α β : Type} {x : α} {b : β} :
    ∀ {fs : List (α → Option β)}, firstSome fs x = some b →
      ∃ i, ∃ h : i < fs.length, fs.get ⟨i, h⟩ x = some b ∧
        ∀ j, ∀ hj : j < i, fs.get ⟨j, hj.trans h⟩ x = none := by
  intro fs
  induction fs with
  | nil =>
    intro h
    simp [firstSome] at h
  | cons g gs ih =>
    intro h
    rw [firstSome] at h
    cases hg : g x with
    | some r =>
      rw [hg] at h
      have hrb : r = b := Option.some.inj h
      subst hrb
      exact ⟨0, Nat.succ_pos _, hg, fun j hj => absurd hj (Nat.not_lt_zero j)⟩
    | none =>
      rw [hg] at h
      obtain ⟨i, hi, hget, hprev⟩ := ih h
      refine ⟨i + 1, Nat.succ_lt_succ hi, hget, ?_⟩
      intro j hj
      cases j with
      | zero => exact hg
      | succ j2 => exact hprev j2 (Nat.lt_of_succ_lt_succ hj)

theorem alcLoop_some (e v : ℚ) (t : Str) :
    ∀ ps : List (Str → Option Str), alcLoop e t ps = some v →
      ∃ p ∈ ps, ∃ tok, scanFirst p t = some tok ∧ parseDec tok = v ∧
        qNonneg v ∧ qLe100 v ∧ qTol v e := by
  intro ps
  induction ps with
  | nil =>
    intro h
    simp [alcLoop] at h
  | cons p ps ih =>
    intro h
    rw [alcLoop] at h
    cases hs : scanFirst p t with
    | none =>
      rw [hs] at h
      obtain ⟨q, hq, rest⟩ := ih h
      exact ⟨q, List.mem_cons_of_mem _ hq, rest⟩
    | some tok =>
      simp only [hs] at h
      split at h
      · rename_i hcond
        have hv : parseDec tok = v := Option.some.inj h
        subst hv
        exact ⟨p, List.mem_cons_self _ _, tok, hs, rfl, hcond.1, hcond.2.1, hcond.2.2⟩
      · obtain ⟨q, hq, rest⟩ := ih h
        exact ⟨q, List.mem_cons_of_mem _ hq, rest⟩

theorem alcLoopLegacy_some (v : ℚ) (t : Str) :
    ∀ ps : List (Str → Option Str), alcLoopLegacy t ps = some v →
      ∃ p ∈ ps, ∃ tok, scanFirst p t = some tok ∧ parseDec tok = v ∧
        qNonneg v ∧ qLe100 v := by
  intro ps
  induction ps with
  | nil =>
    intro h
    simp [alcLoopLegacy] at h
  | cons p ps ih =>
    intro h
    rw [alcLoopLegacy] at h
    cases hs : scanFirst p t with
    | none =>
      rw [hs] at h
      obtain ⟨q, hq, rest⟩ := ih h
      exact ⟨q, List.mem_cons_of_mem _ hq, rest⟩
    | some tok =>
      simp only [hs] at h
      split at h
      · rename_i hcond
        have hv : parseDec tok = v := Option.some.inj h
        subst hv
        exact ⟨p, List.mem_cons_self _ _, tok, hs, rfl, hcond.1, hcond.2⟩
      · obtain ⟨q, hq, rest⟩ := ih h
        exact ⟨q, List.mem_cons_of_mem _ hq, rest⟩

/-! ### Claim theorems -/

/-- C1: for every declared-data record and recognized-text input, the
current `verifyLabel` sets `overallMatch` exactly to the conjunction of
the `matched` flags of the present FieldOutcomes; absent optional fields
do not block a pass and `governmentWarning` is not consulted, so
`governmentWarning.found = false` never makes `overallMatch` false. -/
theorem verifyLabel_overallMatch_iff_present_fields :
    ∀ fd : TTBFormData, ∀ ocr : OCRResult,
      (verifyLabel fd ocr).overallMatch = specPresentFieldsMatched (verifyLabel fd ocr) := by
  intro fd ocr
  rcases fd with ⟨bn, pc, ac, nc⟩
  cases ac with
  | none =>
    cases nc with
    | none => simp [verifyLabel, specPresentFieldsMatched, jsTruthyStr]
    | some v =>
      cases hv : v.isEmpty with
      | true => simp [verifyLabel, specPresentFieldsMatched, jsTruthyStr, hv]
      | false => simp [verifyLabel, specPresentFieldsMatched, jsTruthyStr, hv]
  | some e =>
    cases nc with
    | none => simp [verifyLabel, specPresentFieldsMatched, jsTruthyStr]
    | some v =>
      cases hv : v.isEmpty with
      | true => simp [verifyLabel, specPresentFieldsMatched, jsTruthyStr, hv]
      | false => simp [verifyLabel, specPresentFieldsMatched, jsTruthyStr, hv]

/-- C2: with an expected value supplied, `extractAlcoholPercentage`
returns `some v` only when `v` is a pattern candidate parsed from the
text within ±0.1 of the expected value (so it returns the candidate, not
the expected value); the spec examples and both tolerance boundaries
(0.1 inclusive, 0.11 exclusive) evaluate as stated. -/
theorem extractAlcoholPercentage_tolerance :
    (∀ t : Str, ∀ e v : ℚ, extractAlcoholPercentage t (some e) = some v →
        alcCandidate t v ∧ |v - e| ≤ 1 / 10)
    ∧ extractAlcoholPercentage "5.0% ABV".data (some 5) = some 5
    ∧ extractAlcoholPercentage "5.0% ABV".data (some (mkRat 26 5)) = none
    ∧ extractAlcoholPercentage "5.1% ABV".data (some 5) = some (mkRat 51 10)
    ∧ extractAlcoholPercentage "5.11% ABV".data (some 5) = none := by
  refine ⟨?_, by decide, by decide, by decide, by decide⟩
  intro t e v h
  obtain ⟨p, hp, tok, hscan, hparse, _, _, htol⟩ := alcLoop_some e v t alcPatterns h
  exact ⟨⟨p, hp, tok, hscan, hparse⟩, (qTol_iff v e).mp htol⟩

/-- C2 witness: the theorem applied at `"5.1% ABV"` with expected 5. -/
theorem extractAlcoholPercentage_tolerance_witness :
    alcCandidate "5.1% ABV".data (mkRat 51 10) ∧ |(mkRat 51 10 : ℚ) - 5| ≤ 1 / 10 :=
  extractAlcoholPercentage_tolerance.1 "5.1% ABV".data 5 (mkRat 51 10) (by decide)

/-- C3 counterexample: a parsed candidate of exactly 0 is accepted and
returned, so the returned values are not confined to `(0, 100]`. -/
theorem extractAlcoholPercentage_zero_accepted :
    extractAlcoholPercentage "0%".data (some 0) = some 0 ∧ ¬(0 : ℚ) < 0 :=
  ⟨by decide, lt_irrefl 0⟩

/-- C3 (amended): every value returned by either alcohol extractor lies
in the closed interval `[0, 100]`; the code bound is `>= 0`, so a parsed
candidate of exactly 0 is accepted, not rejected. -/
theorem extractAlcoholPercentage_range :
    (∀ t : Str, ∀ e : Option ℚ, ∀ v : ℚ, extractAlcoholPercentage t e = some v →
        0 ≤ v ∧ v ≤ 100)
    ∧ (∀ t : Str, ∀ v : ℚ, extractAlcoholPercentageLegacy t = some v →
        0 ≤ v ∧ v ≤ 100) := by
  constructor
  · intro t e v h
    cases e with
    | none => simp [extractAlcoholPercentage] at h
    | some e0 =>
      obtain ⟨_, _, _, _, _, h1, h2, _⟩ := alcLoop_some e0 v t alcPatterns h
      exact ⟨(qNonneg_iff v).mp h1, (qLe100_iff v).mp h2⟩
  · intro t v h
    obtain ⟨_, _, _, _, _, h1, h2⟩ := alcLoopLegacy_some v t alcPatternsLegacy h
    exact ⟨(qNonneg_iff v).mp h1, (qLe100_iff v).mp h2⟩

/-- C3 witness: the amended theorem applied to both extractor variants at
concrete inputs. -/
theorem extractAlcoholPercentage_range_witness :
    (0 ≤ (5 : ℚ) ∧ (5 : ℚ) ≤ 100) ∧ (0 ≤ (0 : ℚ) ∧ (0 : ℚ) ≤ 100) :=
  ⟨extractAlcoholPercentage_range.1 "5.0% ABV".data (some 5) 5 (by decide),
   extractAlcoholPercentage_range.2 "0%".data 0 (by decide)⟩

/-- C4 counterexample: `normalizeText` is not idempotent — stripping the
leading punctuation of `"! a"` exposes whitespace that only a second
application trims. -/
theorem normalizeText_not_idempotent :
    normalizeText (normalizeText "! a".data) ≠ normalizeText "! a".data := by decide

/-- C4 (amended): the normalizer is idempotent only up to a final trim —
`normalize ∘ normalize = trim ∘ normalize`, so idempotence holds exactly
on inputs whose normal form has no leading or trailing whitespace — and
it is case-insensitive as claimed. -/
theorem normalizeText_idempotent_up_to_trim :
    (∀ s : Str, normalizeText (normalizeText s) = trimStr (normalizeText s))
    ∧ normalizeText "HELLO".data = normalizeText "hello".data :=
  ⟨normalizeText_normalizeText, by decide⟩

/-- C5: the volume extractor never performs free discovery — without an
expected volume it returns null immediately. -/
theorem extractVolume_none_without_hint :
    ∀ t : Str, extractVolume t none = none := fun _ => rfl

/-- C6 counterexample: for `"1 2 FL OZ"` against expected `"12 FL OZ"`,
the space-removing normalization of the claim puts the two strings in
the substring relation, yet `extractVolume` returns the found span
`"2 FL OZ"`, not the expected string: the code normalization keeps
spaces, so the claimed hypothesis does not imply the echo. -/
theorem extractVolume_echo_counterexample :
    jsIncludes (specNormalizeVolume "1 2 FL OZ".data) (specNormalizeVolume "12 FL OZ".data) = true
    ∧ extractVolume "1 2 FL OZ".data (some "12 FL OZ".data) = some "2 FL OZ".data
    ∧ some "2 FL OZ".data ≠ some "12 FL OZ".data :=
  ⟨by decide, by decide, by decide⟩

/-- C6 (amended): the normalization lowercases and removes punctuation
(including periods) but keeps spaces and newlines; when the normalized
text contains the normalized (nonempty) expected volume, the original
`expectedVolume` string is echoed verbatim; the two spec examples hold. -/
theorem extractVolume_echo :
    (∀ t v : Str, v ≠ [] →
        jsIncludes (normalizeText t) (normalizeText v) = true →
        extractVolume t (some v) = some v)
    ∧ extractVolume "12 FL OZ beer".data (some "12 FL OZ".data) = some "12 FL OZ".data
    ∧ extractVolume "no volume here".data (some "12 FL OZ".data) = none := by
  refine ⟨?_, by decide, by decide⟩
  intro t v hv hinc
  cases v with
  | nil => exact absurd rfl hv
  | cons c cs => simp [extractVolume, hinc]

/-- C6 witness: the amended theorem applied at a concrete input. -/
theorem extractVolume_echo_witness :
    extractVolume "750 mL bottle".data (some "750 mL".data) = some "750 mL".data :=
  extractVolume_echo.1 "750 mL bottle".data "750 mL".data (by decide) (by decide)

/-- C7: the hint-driven brand-name and product-class extractors return
null when no expected value is supplied, and any successful result is the
expected value echoed verbatim. -/
theorem extractBrandName_productClass_hint_driven :
    (∀ t : Str, extractBrandName t none = none)
    ∧ (∀ t : Str, extractProductClass t none = none)
    ∧ (∀ t v s : Str, extractBrandName t (some v) = some s → s = v)
    ∧ (∀ t v s : Str, extractProductClass t (some v) = some s → s = v) := by
  refine ⟨fun _ => rfl, fun _ => rfl, ?_, ?_⟩
  · intro t v s h
    simp only [extractBrandName] at h
    split at h
    · exact Option.noConfusion h
    · split at h
      · exact (Option.some.inj h).symm
      · exact Option.noConfusion h
  · intro t v s h
    simp only [extractProductClass] at h
    split at h
    · exact Option.noConfusion h
    · split at h
      · exact (Option.some.inj h).symm
      · exact Option.noConfusion h

/-- C7 witness: the theorem applied at concrete successful extractions. -/
theorem extractBrandName_productClass_hint_driven_witness :
    ("Budweiser".data = "Budweiser".data) ∧ ("Beer".data = "Beer".data) :=
  ⟨extractBrandName_productClass_hint_driven.2.2.1 "budweiser premium beer".data
      "Budweiser".data "Budweiser".data (by decide),
   extractBrandName_productClass_hint_driven.2.2.2 "fine beer here".data
      "Beer".data "Beer".data (by decide)⟩

/-- C8: any text containing `"GOVERNMENT WARNING"` is found; the spec
example `"no warning"` is not found and carries no snippet; whenever a
snippet is reported it is the matched span of the first pattern in the
fixed ordered list that matches (all earlier patterns fail), and a
not-found outcome carries no snippet. -/
theorem checkGovernmentWarning_spec :
    (∀ t : Str, jsIncludes t "GOVERNMENT WARNING".data = true →
        (checkGovernmentWarning t).found = true)
    ∧ checkGovernmentWarning "no warning".data = ⟨false, none⟩
    ∧ (∀ t s : Str, (checkGovernmentWarning t).text = some s →
        (checkGovernmentWarning t).found = true ∧
        ∃ i, ∃ h : i < gwPatterns.length, gwPatterns.get ⟨i, h⟩ t = some s ∧
          ∀ j, ∀ hj : j < i, gwPatterns.get ⟨j, hj.trans h⟩ t = none)
    ∧ (∀ t : Str, (checkGovernmentWarning t).found = false →
        (checkGovernmentWarning t).text = none) := by
  refine ⟨?_, by decide, ?_, ?_⟩
  · intro t h
    obtain ⟨a, b, hab⟩ := jsIncludes_iff.mp h
    rw [List.append_assoc] at hab
    subst hab
    have hpat : phraseAt ["government".data, "warning".data]
        ("GOVERNMENT WARNING".data ++ b) = some 18 := rfl
    have hscan : (scanSpan (phraseAt ["government".data, "warning".data])
        (a ++ ("GOVERNMENT WARNING".data ++ b))).isSome :=
      scanSpan_isSome_append _ a _ 18 hpat
    have hfound : (firstSome gwPatterns (a ++ ("GOVERNMENT WARNING".data ++ b))).isSome :=
      firstSome_isSome_of_mem (List.mem_cons_self _ _) hscan
    obtain ⟨r, hr⟩ := Option.isSome_iff_exists.mp hfound
    unfold checkGovernmentWarning
    rw [hr]
  · intro t s h
    cases hfs : firstSome gwPatterns t with
    | none =>
      have hnone : (checkGovernmentWarning t).text = none := by
        unfold checkGovernmentWarning
        rw [hfs]
      rw [hnone] at h
      exact Option.noConfusion h
    | some r =>
      have hck : checkGovernmentWarning t = ⟨true, some r⟩ := by
        unfold checkGovernmentWarning
        rw [hfs]
      rw [hck] at h
      have hrs : r = s := Option.some.inj h
      subst hrs
      rw [hck]
      exact ⟨rfl, firstSome_eq_some hfs⟩
  · intro t h
    cases hfs : firstSome gwPatterns t with
    | none =>
      unfold checkGovernmentWarning
      rw [hfs]
    | some r =>
      have hck : checkGovernmentWarning t = ⟨true, some r⟩ := by
        unfold checkGovernmentWarning
        rw [hfs]
      rw [hck] at h
      exact Bool.noConfusion h

/-- C8 witness: the theorem applied at concrete texts. -/
theorem checkGovernmentWarning_spec_witness :
    (checkGovernmentWarning "xx GOVERNMENT WARNING yy".data).found = true
    ∧ (checkGovernmentWarning "nothing here".data).text = none :=
  ⟨checkGovernmentWarning_spec.1 "xx GOVERNMENT WARNING yy".data (by decide),
   checkGovernmentWarning_spec.2.2.2 "nothing here".data (by decide)⟩

/-- C9: the three spec examples of `fuzzyMatch` evaluate as stated
(`"Bourbon Whiskey"` against the Kentucky phrase already succeeds at the
containment layer; the word-subset layer is the spec rationale). -/
theorem fuzzyMatch_examples :
    fuzzyMatch "Budweiser".data "budweiser".data = true
    ∧ fuzzyMatch "Budweiser".data "Coors".data = false
    ∧ fuzzyMatch "Bourbon Whiskey".data "Kentucky Straight Bourbon Whiskey".data = true :=
  ⟨by decide, by decide, by decide⟩

/-- C10: `fuzzyMatch` accepts the empty extracted string for every
expected string (normalization of `""` is `""` and the
expected-contains-extracted check always holds for `""`), so the legacy
`verifyLabel`, which fuzzy-matches the declared brand against the whole
recognized text, reports a brand-name match on empty recognized text. -/
theorem fuzzyMatch_empty_extracted :
    (∀ e : Str, fuzzyMatch e [] = true)
    ∧ (∀ fd : TTBFormDataLegacy, ∀ conf : ℚ,
        (verifyLabelLegacy fd ⟨[], conf⟩).brandName.matched = true) := by
  have hbase : ∀ e : Str, fuzzyMatch e [] = true := by
    intro e
    have hnil : normalizeText ([] : Str) = [] := rfl
    unfold fuzzyMatch
    cases hne : normalizeText e with
    | nil => simp [hnil, hne]
    | cons c cs => simp [hnil, hne, jsIncludes, prefixEq, jsIncludes_nil_right]
  refine ⟨hbase, ?_⟩
  intro fd conf
  simp [verifyLabelLegacy, hbase fd.brandName]

end TTB
